import Mathlib

/-!
Shallow embedding of the webpki signed-data verifier and subject-name
verification code (`src/signed_data.rs`, `src/subject_name/verify.rs`).

Byte strings are `List Nat`. The cryptographic DNS/IP matchers that live in
`dns_name.rs` / `ip_address.rs` (external to the provided sources) are taken
as parameters of the embedded functions, so every theorem quantifies over
their behaviour. The low-level DER reader (`der.rs`, also not among the
provided sources) is modelled from the specification, section 4.1.
-/

namespace Webpki

/-- Byte strings as lists of naturals (each entry intended to be < 256). -/
abbrev Bytes := List Nat

/-- The error variants of `error.rs` that the embedded functions can produce. -/
inductive Error where
  | BadDer
  | CertNotValidForName
  | MalformedDnsIdentifier
  | UnsupportedSignatureAlgorithm
  | UnsupportedSignatureAlgorithmForPublicKey
  | InvalidSignatureForPublicKey
  | NameConstraintViolation
  deriving DecidableEq, Repr

/-- Modelled from the spec: the definite-length decoder of the missing
`der.rs` (spec section 4.1). A high-bit-set first octet `0x80 + n` announces
`n` length bytes (`n ≤ 4`), minimally encoded (no leading zero byte, and the
long form is not used for lengths below 128); the indefinite form `0x80`
(`n = 0`) is rejected. Returns the decoded length and the remaining bytes. -/
def readLength : Bytes → Option (Nat × Bytes)
  | [] => none
  | b :: rest =>
    if b < 128 then some (b, rest)
    else
      let n := b - 128
      if 1 ≤ n ∧ n ≤ 4 ∧ n ≤ rest.length then
        let len := (rest.take n).foldl (fun acc x => acc * 256 + x) 0
        if (rest.take n).head? = some 0 ∨ (n = 1 ∧ len < 128) then none
        else some (len, rest.drop n)
      else none

/-- Modelled from the spec: `der::read_tag_and_get_value` of the missing
`der.rs` (spec section 4.1): one tag byte, a definite length, then that many
value bytes; the raw tag byte is exposed to the caller. Returns
`((tag, value), rest)`. -/
def read_tag_and_get_value (input : Bytes) : Except Error ((Nat × Bytes) × Bytes) :=
  match input with
  | [] => .error .BadDer
  | tag :: rest =>
    match readLength rest with
    | none => .error .BadDer
    | some (len, rest2) =>
      if len ≤ rest2.length then .ok ((tag, rest2.take len), rest2.drop len)
      else .error .BadDer

/-- Modelled from the spec: `der::expect_tag_and_get_value` of the missing
`der.rs`: read one TLV and require the given tag. -/
def expect_tag_and_get_value (input : Bytes) (tag : Nat) : Except Error (Bytes × Bytes) :=
  match read_tag_and_get_value input with
  | .error e => .error e
  | .ok ((t, v), rest) => if t = tag then .ok (v, rest) else .error .BadDer

/-- Modelled from the spec: `der::bit_string_with_no_unused_bits` of the
missing `der.rs` (spec section 4.1): a BIT STRING (tag `0x03`) whose first
content octet (the unused-bit count) must be zero; its remaining content
octets are returned. -/
def bit_string_with_no_unused_bits (input : Bytes) : Except Error (Bytes × Bytes) :=
  match expect_tag_and_get_value input 3 with
  | .error e => .error e
  | .ok (value, rest) =>
    match value with
    | 0 :: key => .ok (key, rest)
    | _ => .error .BadDer

theorem readLength_length_lt {bs : Bytes} {len : Nat} {rest : Bytes}
    (h : readLength bs = some (len, rest)) : rest.length < bs.length := by
  match bs with
  | [] => simp [readLength] at h
  | b :: r =>
    simp only [readLength] at h
    split at h
    · simp only [Option.some.injEq, Prod.mk.injEq] at h
      obtain ⟨-, rfl⟩ := h
      simp
    · split at h
      · split at h
        · simp at h
        · simp only [Option.some.injEq, Prod.mk.injEq] at h
          obtain ⟨-, rfl⟩ := h
          simp only [List.length_drop, List.length_cons]
          omega
      · simp at h

theorem read_tag_and_get_value_length_lt {input : Bytes} {t : Nat} {v rest : Bytes}
    (h : read_tag_and_get_value input = .ok ((t, v), rest)) :
    rest.length < input.length := by
  match input with
  | [] => simp [read_tag_and_get_value] at h
  | tag :: r =>
    simp only [read_tag_and_get_value] at h
    split at h
    · simp at h
    · rename_i len r2 hl
      have hr2 : r2.length < r.length := readLength_length_lt hl
      split at h
      · simp only [Except.ok.injEq, Prod.mk.injEq] at h
        obtain ⟨-, rfl⟩ := h
        simp only [List.length_drop, List.length_cons]
        omega
      · simp at h

theorem expect_tag_and_get_value_length_lt {input : Bytes} {tag : Nat} {v rest : Bytes}
    (h : expect_tag_and_get_value input tag = .ok (v, rest)) :
    rest.length < input.length := by
  simp only [expect_tag_and_get_value] at h
  split at h
  · simp at h
  · rename_i t v' rest' hr
    split at h
    · simp only [Except.ok.injEq, Prod.mk.injEq] at h
      obtain ⟨-, rfl⟩ := h
      exact read_tag_and_get_value_length_lt hr
    · simp at h

/-- The `GeneralName` enum of `subject_name/verify.rs`: typed variants hold
the raw value bytes; `Unsupported` holds the tag with the context-specific
and constructed bits cleared. -/
inductive GeneralName where
  | DnsName (value : Bytes)
  | DirectoryName (value : Bytes)
  | IpAddress (value : Bytes)
  | UniformResourceIdentifier (value : Bytes)
  | Unsupported (tag : Nat)
  deriving DecidableEq, Repr

/-- `GeneralName::from_der` (`subject_name/verify.rs` lines 417-446): read one
TLV and classify by the raw tag byte. `CONTEXT_SPECIFIC = 0x80`,
`CONSTRUCTED = 0x20`; dNSName is `0x82`, directoryName `0xA4`, iPAddress
`0x87`, uniformResourceIdentifier `0x86`; otherName `0xA0`, rfc822Name
`0x81`, x400Address `0xA3`, ediPartyName `0xA5` and registeredID `0x88`
become `Unsupported (tag &&& ~(CONTEXT_SPECIFIC ||| CONSTRUCTED))`; all other
tags are rejected with `BadDer`. Returns the name and the remaining bytes. -/
def GeneralName.from_der (input : Bytes) : Except Error (GeneralName × Bytes) :=
  match read_tag_and_get_value input with
  | .error e => .error e
  | .ok ((tag, value), rest) =>
    if tag = 130 then .ok (.DnsName value, rest)
    else if tag = 164 then .ok (.DirectoryName value, rest)
    else if tag = 135 then .ok (.IpAddress value, rest)
    else if tag = 134 then .ok (.UniformResourceIdentifier value, rest)
    else if tag = 160 ∨ tag = 129 ∨ tag = 163 ∨ tag = 165 ∨ tag = 136 then
      .ok (.Unsupported (tag &&& 95), rest)
    else .error .BadDer

theorem GeneralName.from_der_length_lt {input : Bytes} {n : GeneralName} {rest : Bytes}
    (h : GeneralName.from_der input = .ok (n, rest)) : rest.length < input.length := by
  simp only [GeneralName.from_der] at h
  split at h
  · simp at h
  · rename_i tag value rest' hr
    have := read_tag_and_get_value_length_lt hr
    split_ifs at h <;>
      first
      | (simp only [Except.ok.injEq, Prod.mk.injEq] at h; obtain ⟨-, rfl⟩ := h; exact this)
      | simp at h

example : GeneralName.from_der [130, 1, 97] = .ok (.DnsName [97], []) := by rfl
example : GeneralName.from_der [137, 0] = .error .BadDer := by rfl
example : GeneralName.from_der [129, 2, 5, 6] = .ok (.Unsupported 1, []) := by rfl
example : GeneralName.from_der [164, 0, 9] = .ok (.DirectoryName [], [9]) := by rfl

/-- The `SignedData` struct of `signed_data.rs`: the signed bytes, the
`AlgorithmIdentifier` value (outer SEQUENCE excluded) and the signature
(BIT STRING contents). -/
structure SignedData where
  data : Bytes
  algorithm : Bytes
  signature : Bytes

/-- One implementation of the `SignatureVerificationAlgorithm` trait of
`signed_data.rs`: the two `AlgorithmIdentifier` encodings it announces, and
its `verify_signature` callback `(public_key, message, signature)` returning
whether the signature is cryptographically valid. -/
structure SigAlg where
  signature_alg_id : Bytes
  public_key_alg_id : Bytes
  verify : Bytes → Bytes → Bytes → Bool

/-- The `SubjectPublicKeyInfo` struct of `signed_data.rs`. -/
structure SubjectPublicKeyInfo where
  algorithm_id_value : Bytes
  key_value : Bytes
  deriving DecidableEq, Repr

/-- `SubjectPublicKeyInfo::from_der` composed with the `read_all` done by
`verify_signature` (`signed_data.rs` lines 209 and 231-244): an
`AlgorithmIdentifier` SEQUENCE, then the key as a BIT STRING with zero
unused bits, with no bytes left over. -/
def SubjectPublicKeyInfo.from_der (input : Bytes) : Except Error SubjectPublicKeyInfo :=
  match expect_tag_and_get_value input 48 with
  | .error e => .error e
  | .ok (algorithm_id_value, rest) =>
    match bit_string_with_no_unused_bits rest with
    | .error e => .error e
    | .ok (key_value, rest2) =>
      if rest2 = [] then .ok ⟨algorithm_id_value, key_value⟩ else .error .BadDer

/-- `verify_signature` (`signed_data.rs` lines 203-224): parse the SPKI,
require the algorithm's `public_key_alg_id` to byte-equal the SPKI algorithm
identifier value, then delegate to the algorithm's verification callback. -/
def verify_signature (signature_alg : SigAlg) (spki_value msg signature : Bytes) :
    Except Error Unit :=
  match SubjectPublicKeyInfo.from_der spki_value with
  | .error e => .error e
  | .ok spki =>
    if ¬(signature_alg.public_key_alg_id = spki.algorithm_id_value) then
      .error .UnsupportedSignatureAlgorithmForPublicKey
    else if signature_alg.verify spki.key_value msg signature then .ok ()
    else .error .InvalidSignatureForPublicKey

/-- The loop of `verify_signed_data` (`signed_data.rs` lines 175-200):
iterate the supported algorithms whose `signature_alg_id` byte-equals
`signed_data.algorithm`; a key/algorithm mismatch sets
`found_signature_alg_match` and continues; any other outcome returns
immediately; exhaustion reports which kind of mismatch was seen. -/
def verify_signed_data_loop (supported_algorithms : List SigAlg) (spki_value : Bytes)
    (signed_data : SignedData) (found_signature_alg_match : Bool) : Except Error Unit :=
  match supported_algorithms with
  | [] =>
    if found_signature_alg_match then .error .UnsupportedSignatureAlgorithmForPublicKey
    else .error .UnsupportedSignatureAlgorithm
  | alg :: rest =>
    if alg.signature_alg_id = signed_data.algorithm then
      match verify_signature alg spki_value signed_data.data signed_data.signature with
      | .error .UnsupportedSignatureAlgorithmForPublicKey =>
        verify_signed_data_loop rest spki_value signed_data true
      | result => result
    else verify_signed_data_loop rest spki_value signed_data found_signature_alg_match

/-- `verify_signed_data` (`signed_data.rs` lines 151-201). -/
def verify_signed_data (supported_algorithms : List SigAlg) (spki_value : Bytes)
    (signed_data : SignedData) : Except Error Unit :=
  verify_signed_data_loop supported_algorithms spki_value signed_data false

theorem verify_signed_data_loop_no_match {algs : List SigAlg} {sd : SignedData}
    {spki : Bytes} (h : ∀ a ∈ algs, a.signature_alg_id ≠ sd.algorithm) (found : Bool) :
    verify_signed_data_loop algs spki sd found =
      .error (if found then .UnsupportedSignatureAlgorithmForPublicKey
              else .UnsupportedSignatureAlgorithm) := by
  induction algs with
  | nil => cases found <;> simp [verify_signed_data_loop]
  | cons a rest ih =>
    have ha : a.signature_alg_id ≠ sd.algorithm := h a (by simp)
    simp only [verify_signed_data_loop, if_neg ha]
    exact ih (fun b hb => h b (List.mem_cons_of_mem a hb))

theorem verify_signed_data_loop_all_key_mismatch {algs : List SigAlg} {sd : SignedData}
    {spki : Bytes} {spkiVal : SubjectPublicKeyInfo}
    (hspki : SubjectPublicKeyInfo.from_der spki = .ok spkiVal)
    (h : ∀ a ∈ algs, a.signature_alg_id = sd.algorithm →
      a.public_key_alg_id ≠ spkiVal.algorithm_id_value) (found : Bool) :
    verify_signed_data_loop algs spki sd found =
      .error (if found || algs.any (fun a => a.signature_alg_id = sd.algorithm)
              then .UnsupportedSignatureAlgorithmForPublicKey
              else .UnsupportedSignatureAlgorithm) := by
  induction algs generalizing found with
  | nil => cases found <;> simp [verify_signed_data_loop]
  | cons a rest ih =>
    by_cases ha : a.signature_alg_id = sd.algorithm
    · have hpk : a.public_key_alg_id ≠ spkiVal.algorithm_id_value := h a (by simp) ha
      have hv : verify_signature a spki sd.data sd.signature =
          .error .UnsupportedSignatureAlgorithmForPublicKey := by
        simp [verify_signature, hspki, hpk]
      simp only [verify_signed_data_loop, if_pos ha, hv]
      rw [ih (fun b hb => h b (List.mem_cons_of_mem a hb)) true]
      simp [ha]
    · simp only [verify_signed_data_loop, if_neg ha]
      rw [ih (fun b hb => h b (List.mem_cons_of_mem a hb)) found]
      simp [ha]

/-- C1: when `verify_signed_data` exhausts its loop — the SPKI parses, at
least one supported algorithm matches `signed_data.algorithm` but none of
those also matches the SPKI algorithm identifier — the result is
`UnsupportedSignatureAlgorithmForPublicKey`; and when no supported algorithm
matches `signed_data.algorithm` at all, the result is
`UnsupportedSignatureAlgorithm`. -/
theorem C1_loop_exhausted_errors
    (algs : List SigAlg) (spki : Bytes) (sd : SignedData)
    (spkiVal : SubjectPublicKeyInfo)
    (hspki : SubjectPublicKeyInfo.from_der spki = .ok spkiVal) :
    ((∃ a ∈ algs, a.signature_alg_id = sd.algorithm) →
      (∀ a ∈ algs, a.signature_alg_id = sd.algorithm →
        a.public_key_alg_id ≠ spkiVal.algorithm_id_value) →
      verify_signed_data algs spki sd =
        .error .UnsupportedSignatureAlgorithmForPublicKey)
    ∧ ((∀ a ∈ algs, a.signature_alg_id ≠ sd.algorithm) →
      verify_signed_data algs spki sd = .error .UnsupportedSignatureAlgorithm) := by
  constructor
  · intro hex hall
    rw [verify_signed_data, verify_signed_data_loop_all_key_mismatch hspki hall false]
    have : algs.any (fun a => a.signature_alg_id = sd.algorithm) = true := by
      obtain ⟨a, ha, he⟩ := hex
      exact List.any_eq_true.mpr ⟨a, ha, by simp [he]⟩
    simp [this]
  · intro hnone
    rw [verify_signed_data, verify_signed_data_loop_no_match hnone false]
    simp

/-- Witness for C1 at a concrete input: one supported algorithm whose
signature algorithm identifier matches but whose public-key algorithm
identifier does not match the parsed SPKI. -/
theorem C1_loop_exhausted_errors_witness :
    verify_signed_data [⟨[7], [5], fun _ _ _ => true⟩] [48, 2, 1, 2, 3, 2, 0, 9]
        ⟨[], [7], []⟩ = .error .UnsupportedSignatureAlgorithmForPublicKey :=
  (C1_loop_exhausted_errors [⟨[7], [5], fun _ _ _ => true⟩] [48, 2, 1, 2, 3, 2, 0, 9]
      ⟨[], [7], []⟩ ⟨[1, 2], [9]⟩ (by rfl)).1
    ⟨⟨[7], [5], fun _ _ _ => true⟩, by simp, by simp⟩
    (by intro a ha _; simp at ha; simp [ha])

/-- C2: `verify_signed_data` considers only algorithms whose
`signature_alg_id` byte-equals `signed_data.algorithm`, in list order, skips
each of those whose `public_key_alg_id` does not byte-equal the SPKI
algorithm identifier, and the first algorithm matching on both decides the
result — `Ok` on cryptographic success, `InvalidSignatureForPublicKey` on
cryptographic failure — with the algorithms after it never attempted (the
result does not depend on them). -/
theorem C2_first_full_match_decides
    (l1 l2 : List SigAlg) (a : SigAlg) (spki : Bytes) (sd : SignedData)
    (spkiVal : SubjectPublicKeyInfo)
    (hspki : SubjectPublicKeyInfo.from_der spki = .ok spkiVal)
    (h1 : ∀ b ∈ l1, b.signature_alg_id = sd.algorithm →
      b.public_key_alg_id ≠ spkiVal.algorithm_id_value)
    (ha1 : a.signature_alg_id = sd.algorithm)
    (ha2 : a.public_key_alg_id = spkiVal.algorithm_id_value) :
    verify_signed_data (l1 ++ a :: l2) spki sd =
      if a.verify spkiVal.key_value sd.data sd.signature then .ok ()
      else .error .InvalidSignatureForPublicKey := by
  have key : ∀ (l : List SigAlg) (found : Bool),
      (∀ b ∈ l, b.signature_alg_id = sd.algorithm →
        b.public_key_alg_id ≠ spkiVal.algorithm_id_value) →
      verify_signed_data_loop (l ++ a :: l2) spki sd found =
        if a.verify spkiVal.key_value sd.data sd.signature then .ok ()
        else .error .InvalidSignatureForPublicKey := by
    intro l
    induction l with
    | nil =>
      intro found _
      cases hv : a.verify spkiVal.key_value sd.data sd.signature <;>
        simp [verify_signed_data_loop, ha1, verify_signature, hspki, ha2, hv]
    | cons b l' ih =>
      intro found hb
      by_cases hsig : b.signature_alg_id = sd.algorithm
      · have hpk := hb b (by simp) hsig
        have hv : verify_signature b spki sd.data sd.signature =
            .error .UnsupportedSignatureAlgorithmForPublicKey := by
          simp [verify_signature, hspki, hpk]
        simp only [List.cons_append, verify_signed_data_loop, if_pos hsig, hv]
        exact ih true (fun c hc => hb c (List.mem_cons_of_mem b hc))
      · simp only [List.cons_append, verify_signed_data_loop, if_neg hsig]
        exact ih found (fun c hc => hb c (List.mem_cons_of_mem b hc))
  exact key l1 false h1

/-- Witness for C2 at a concrete input: the first algorithm matches the
signature algorithm only (skipped), the second matches both and its verifier
rejects, the third is never attempted. -/
theorem C2_first_full_match_decides_witness :
    verify_signed_data
        [⟨[7], [5], fun _ _ _ => true⟩, ⟨[7], [1, 2], fun _ _ _ => false⟩,
          ⟨[7], [1, 2], fun _ _ _ => true⟩]
        [48, 2, 1, 2, 3, 2, 0, 9] ⟨[], [7], []⟩ =
      .error .InvalidSignatureForPublicKey :=
  C2_first_full_match_decides [⟨[7], [5], fun _ _ _ => true⟩]
    [⟨[7], [1, 2], fun _ _ _ => true⟩] ⟨[7], [1, 2], fun _ _ _ => false⟩
    [48, 2, 1, 2, 3, 2, 0, 9] ⟨[], [7], []⟩ ⟨[1, 2], [9]⟩ (by rfl)
    (by intro b hb _; simp at hb; simp [hb]) (by simp) (by simp)

/-- C3 counterexample: the context-specific primitive tag byte `0x89`
(= 137, context-specific tag number 9) is not one of the recognized
general-name tags, and `GeneralName::from_der` rejects it with `BadDer`
instead of producing `Unsupported(0x89 & 0x1F) = Unsupported 9` as the claim
states. -/
theorem C3_counterexample_tag_137 :
    GeneralName.from_der [137, 0] = .error .BadDer := by rfl

/-- C3 (amended): for a well-framed general name, context-specific tags 2
(dNSName), 4 constructed (directoryName), 6 (uniformResourceIdentifier) and
7 (iPAddress) produce the corresponding typed variant; the tag bytes 0xA0
(otherName), 0x81 (rfc822Name), 0xA3 (x400Address), 0xA5 (ediPartyName) and
0x88 (registeredID) produce `Unsupported(tag & 0x5F)`; every other tag byte
produces a `BadDer` parse error. -/
theorem C3_general_name_tag_dispatch (tag : Nat) (content : Bytes)
    (hlen : content.length < 128) :
    GeneralName.from_der (tag :: content.length :: content) =
      if tag = 130 then .ok (.DnsName content, [])
      else if tag = 164 then .ok (.DirectoryName content, [])
      else if tag = 135 then .ok (.IpAddress content, [])
      else if tag = 134 then .ok (.UniformResourceIdentifier content, [])
      else if tag = 160 ∨ tag = 129 ∨ tag = 163 ∨ tag = 165 ∨ tag = 136 then
        .ok (.Unsupported (tag &&& 95), [])
      else .error .BadDer := by
  have hr : read_tag_and_get_value (tag :: content.length :: content) =
      .ok ((tag, content), []) := by
    simp [read_tag_and_get_value, readLength, hlen]
  simp only [GeneralName.from_der, hr]

/-- Witness for the amended C3 at a concrete input: an rfc822Name tag is
kept as `Unsupported 1`. -/
theorem C3_general_name_tag_dispatch_witness :
    GeneralName.from_der [129, 2, 64, 65] = .ok (.Unsupported 1, []) := by
  have := C3_general_name_tag_dispatch 129 [64, 65] (by decide)
  simpa using this

/-- The `SubjectCommonNameContents` enum of `subject_name/verify.rs`. -/
inductive SubjectCommonNameContents where
  | DnsName
  | Ignore
  deriving DecidableEq, Repr

/-- The attribute loop inside `common_name` (`subject_name/verify.rs` lines
454-463): walk the AttributeTypeAndValue SEQUENCE; when the OID `85 4 3`
(id-at-commonName) is found, its UTF8String value is returned (and, because
of the enclosing `read_all`, trailing attributes make it `BadDer`);
other attributes are discarded. -/
def common_name_attributes (input : Bytes) : Except Error (Option Bytes) :=
  match input with
  | [] => .ok none
  | b :: t =>
    match h1 : expect_tag_and_get_value (b :: t) 6 with
    | .error e => .error e
    | .ok (name_oid, rest) =>
      if name_oid = [85, 4, 3] then
        match expect_tag_and_get_value rest 12 with
        | .error e => .error e
        | .ok (value, rest2) =>
          if rest2 = [] then .ok (some value) else .error .BadDer
      else
        match h2 : read_tag_and_get_value rest with
        | .error e => .error e
        | .ok ((_, _), rest2) => common_name_attributes rest2
termination_by input.length
decreasing_by
  have ha := expect_tag_and_get_value_length_lt h1
  have hb := read_tag_and_get_value_length_lt h2
  omega

/-- `common_name` (`subject_name/verify.rs` lines 450-466): read the first
RDN SET of the subject DN, require it to contain exactly one
AttributeTypeAndValue SEQUENCE, and extract the Common Name value if
present. Bytes after the first SET are not examined. -/
def common_name (input : Bytes) : Except Error (Option Bytes) :=
  match expect_tag_and_get_value input 49 with
  | .error e => .error e
  | .ok (set_value, _) =>
    match expect_tag_and_get_value set_value 48 with
    | .error e => .error e
    | .ok (seq_value, rest2) =>
      if rest2 = [] then common_name_attributes seq_value else .error .BadDer

/-- The `NameIterator` struct of `subject_name/verify.rs` (lines 280-284):
the SAN reader is modelled by its remaining bytes. -/
structure NameIterator where
  subject_alt_name : Option Bytes
  subject_directory_name : Option Bytes
  subject_common_name : Option Bytes
  deriving DecidableEq, Repr

/-- `NameIterator::new` (`subject_name/verify.rs` lines 287-306). -/
def NameIterator.new (subject : Option Bytes) (subject_alt_name : Option Bytes)
    (subject_common_name_contents : SubjectCommonNameContents) : NameIterator :=
  let p : Option Bytes × Option Bytes :=
    match subject, subject_common_name_contents with
    | some input, .DnsName => (some input, some input)
    | some input, .Ignore => (some input, none)
    | none, _ => (none, none)
  { subject_alt_name := subject_alt_name
    subject_directory_name := p.1
    subject_common_name := p.2 }

/-- The part of `NameIterator::next` after the SAN phase (`subject_name/
verify.rs` lines 337-350): yield the subject as a `DirectoryName`, then the
synthesized Common Name. Returns the yielded item and the new state. -/
def NameIterator.nextTail (it : NameIterator) :
    Option (Except Error GeneralName) × NameIterator :=
  match it.subject_directory_name with
  | some s =>
    (some (.ok (.DirectoryName s)), { it with subject_directory_name := none })
  | none =>
    match it.subject_common_name with
    | some s =>
      ((match common_name s with
        | .ok (some cn) => some (.ok (.DnsName cn))
        | .ok none => none
        | .error e => some (.error e)),
       { it with subject_common_name := none })
    | none => (none, it)

/-- `NameIterator::next` (`subject_name/verify.rs` lines 312-351): drain the
SAN entries (clearing all state after a SAN parse error), then fall through
to the subject directory name and common name. -/
def NameIterator.next (it : NameIterator) :
    Option (Except Error GeneralName) × NameIterator :=
  match it.subject_alt_name with
  | some san =>
    match san with
    | [] => NameIterator.nextTail { it with subject_alt_name := none }
    | _ :: _ =>
      match GeneralName.from_der san with
      | .ok (name, rest) =>
        (some (.ok name), { it with subject_alt_name := some rest })
      | .error e => (some (.error e), ⟨none, none, none⟩)
  | none => NameIterator.nextTail it

/-- Termination measure for iterating `NameIterator.next`. -/
def NameIterator.size (it : NameIterator) : Nat :=
  (match it.subject_alt_name with | some s => s.length + 1 | none => 0)
  + (match it.subject_directory_name with | some _ => 1 | none => 0)
  + (match it.subject_common_name with | some _ => 1 | none => 0)

theorem NameIterator.nextTail_size_lt {it : NameIterator}
    {x : Except Error GeneralName} {it' : NameIterator}
    (h : it.nextTail = (some x, it')) : it'.size < it.size := by
  obtain ⟨san, d, c⟩ := it
  match d with
  | some s =>
    simp only [NameIterator.nextTail, Prod.mk.injEq] at h
    obtain ⟨-, rfl⟩ := h
    simp [NameIterator.size]
  | none =>
    match c with
    | some s =>
      simp only [NameIterator.nextTail, Prod.mk.injEq] at h
      obtain ⟨-, rfl⟩ := h
      simp [NameIterator.size]
    | none => simp [NameIterator.nextTail] at h

theorem NameIterator.next_size_lt {it : NameIterator}
    {x : Except Error GeneralName} {it' : NameIterator}
    (h : it.next = (some x, it')) : it'.size < it.size := by
  obtain ⟨san, d, c⟩ := it
  match san with
  | none => exact NameIterator.nextTail_size_lt h
  | some [] =>
    simp only [NameIterator.next] at h
    have hlt : it'.size < NameIterator.size ⟨none, d, c⟩ :=
      NameIterator.nextTail_size_lt h
    simp only [NameIterator.size] at hlt ⊢
    omega
  | some (b :: t) =>
    simp only [NameIterator.next] at h
    split at h
    · rename_i name rest hf
      simp only [Prod.mk.injEq] at h
      obtain ⟨-, rfl⟩ := h
      have := GeneralName.from_der_length_lt hf
      simp only [NameIterator.size, List.length_cons]
      simp only [List.length_cons] at this
      omega
    · simp only [Prod.mk.injEq] at h
      obtain ⟨-, rfl⟩ := h
      simp [NameIterator.size]

/-- The full (finite) sequence of items yielded by a `NameIterator`. -/
def NameIterator.items (it : NameIterator) : List (Except Error GeneralName) :=
  match h : it.next with
  | (none, _) => []
  | (some x, it') => x :: it'.items
termination_by it.size
decreasing_by exact NameIterator.next_size_lt h

/-- `Iterator::find_map` over a `NameIterator`, as used by the verification
functions: apply `f` to each yielded item until it returns `some`. -/
def NameIterator.findMap (it : NameIterator)
    (f : Except Error GeneralName → Option (Except Error Unit)) :
    Option (Except Error Unit) :=
  match h : it.next with
  | (none, _) => none
  | (some x, it') =>
    match f x with
    | some r => some r
    | none => it'.findMap f
termination_by it.size
decreasing_by exact NameIterator.next_size_lt h

theorem NameIterator.items_eq (it : NameIterator) :
    it.items = match it.next with
      | (none, _) => []
      | (some x, it') => x :: it'.items := by
  rw [NameIterator.items]
  split
  · rename_i snd heq
    rw [heq]
  · rename_i x it' heq
    rw [heq]

theorem NameIterator.findMap_eq (it : NameIterator)
    (f : Except Error GeneralName → Option (Except Error Unit)) :
    it.findMap f = match it.next with
      | (none, _) => none
      | (some x, it') =>
        match f x with
        | some r => some r
        | none => it'.findMap f := by
  rw [NameIterator.findMap]
  split
  · rename_i snd heq
    rw [heq]
  · rename_i x it' heq
    rw [heq]

theorem NameIterator.items_nil : NameIterator.items ⟨none, none, none⟩ = [] := by
  rw [NameIterator.items_eq]
  rfl

theorem NameIterator.items_san_nil (d c : Option Bytes) :
    NameIterator.items ⟨some [], d, c⟩ = NameIterator.items ⟨none, d, c⟩ := by
  rw [NameIterator.items_eq]
  conv_rhs => rw [NameIterator.items_eq]
  rfl

theorem NameIterator.items_san_cons {b : Nat} {t : Bytes} {n : GeneralName} {rest : Bytes}
    (h : GeneralName.from_der (b :: t) = .ok (n, rest)) (d c : Option Bytes) :
    NameIterator.items ⟨some (b :: t), d, c⟩ =
      .ok n :: NameIterator.items ⟨some rest, d, c⟩ := by
  rw [NameIterator.items_eq]
  simp [NameIterator.next, h]

theorem NameIterator.items_san_err {b : Nat} {t : Bytes} {e : Error}
    (h : GeneralName.from_der (b :: t) = .error e) (d c : Option Bytes) :
    NameIterator.items ⟨some (b :: t), d, c⟩ = [.error e] := by
  rw [NameIterator.items_eq]
  simp [NameIterator.next, h, NameIterator.items_nil]

theorem NameIterator.items_dir (s : Bytes) (c : Option Bytes) :
    NameIterator.items ⟨none, some s, c⟩ =
      .ok (.DirectoryName s) :: NameIterator.items ⟨none, none, c⟩ := by
  rw [NameIterator.items_eq]
  simp [NameIterator.next, NameIterator.nextTail]

theorem NameIterator.items_cn (s : Bytes) :
    NameIterator.items ⟨none, none, some s⟩ =
      match common_name s with
      | .ok (some cn) => [.ok (.DnsName cn)]
      | .ok none => []
      | .error e => [.error e] := by
  rw [NameIterator.items_eq]
  match hcn : common_name s with
  | .ok (some cn) =>
    simp [NameIterator.next, NameIterator.nextTail, hcn, NameIterator.items_nil]
  | .ok none => simp [NameIterator.next, NameIterator.nextTail, hcn]
  | .error e =>
    simp [NameIterator.next, NameIterator.nextTail, hcn, NameIterator.items_nil]

theorem NameIterator.findMap_nil (f : Except Error GeneralName → Option (Except Error Unit)) :
    NameIterator.findMap ⟨none, none, none⟩ f = none := by
  rw [NameIterator.findMap_eq]
  rfl

theorem NameIterator.findMap_san_nil (d c : Option Bytes)
    (f : Except Error GeneralName → Option (Except Error Unit)) :
    NameIterator.findMap ⟨some [], d, c⟩ f = NameIterator.findMap ⟨none, d, c⟩ f := by
  rw [NameIterator.findMap_eq]
  conv_rhs => rw [NameIterator.findMap_eq]
  rfl

theorem NameIterator.findMap_san_cons {b : Nat} {t : Bytes} {n : GeneralName} {rest : Bytes}
    (h : GeneralName.from_der (b :: t) = .ok (n, rest)) (d c : Option Bytes)
    (f : Except Error GeneralName → Option (Except Error Unit)) :
    NameIterator.findMap ⟨some (b :: t), d, c⟩ f =
      match f (.ok n) with
      | some r => some r
      | none => NameIterator.findMap ⟨some rest, d, c⟩ f := by
  rw [NameIterator.findMap_eq]
  simp [NameIterator.next, h]

theorem NameIterator.findMap_san_err {b : Nat} {t : Bytes} {e : Error}
    (h : GeneralName.from_der (b :: t) = .error e) (d c : Option Bytes)
    (f : Except Error GeneralName → Option (Except Error Unit)) :
    NameIterator.findMap ⟨some (b :: t), d, c⟩ f = f (.error e) := by
  rw [NameIterator.findMap_eq]
  simp only [NameIterator.next, h]
  match hf : f (.error e) with
  | some r => simp [hf]
  | none => simp [hf, NameIterator.findMap_nil]

theorem NameIterator.findMap_dir (s : Bytes) (c : Option Bytes)
    (f : Except Error GeneralName → Option (Except Error Unit)) :
    NameIterator.findMap ⟨none, some s, c⟩ f =
      match f (.ok (.DirectoryName s)) with
      | some r => some r
      | none => NameIterator.findMap ⟨none, none, c⟩ f := by
  rw [NameIterator.findMap_eq]
  simp [NameIterator.next, NameIterator.nextTail]

theorem NameIterator.findMap_cn (s : Bytes)
    (f : Except Error GeneralName → Option (Except Error Unit)) :
    NameIterator.findMap ⟨none, none, some s⟩ f =
      match common_name s with
      | .ok (some cn) => f (.ok (.DnsName cn))
      | .ok none => none
      | .error e => f (.error e) := by
  rw [NameIterator.findMap_eq]
  match hcn : common_name s with
  | .ok (some cn) =>
    simp only [NameIterator.next, NameIterator.nextTail, hcn]
    match hf : f (.ok (.DnsName cn)) with
    | some r => simp [hf]
    | none => simp [hf, NameIterator.findMap_nil]
  | .ok none => simp [NameIterator.next, NameIterator.nextTail, hcn]
  | .error e =>
    simp only [NameIterator.next, NameIterator.nextTail, hcn]
    match hf : f (.error e) with
    | some r => simp [hf]
    | none => simp [hf, NameIterator.findMap_nil]


/-- The closure that `verify_cert_dns_name` passes to `find_map`
(`subject_name/verify.rs` lines 38-54): errors are returned, presented
`DnsName` entries are matched against the reference name by
`dns_name::presented_id_matches_reference_id` (the parameter `matchRef`),
`Ok(false)` and `Err(MalformedDnsIdentifier)` continue the search, other
errors are returned, and non-DNS names are skipped. -/
def dnsNameClosure (matchRef : Bytes → Bytes → Except Error Bool) (dns_name : Bytes) :
    Except Error GeneralName → Option (Except Error Unit) := fun result =>
  match result with
  | .error err => some (.error err)
  | .ok name =>
    match name with
    | .DnsName presented =>
      match matchRef presented dns_name with
      | .ok true => some (.ok ())
      | .ok false => none
      | .error .MalformedDnsIdentifier => none
      | .error e => some (.error e)
    | _ => none

/-- `verify_cert_dns_name` (`subject_name/verify.rs` lines 27-56): iterate
the names of the certificate (subject present, Common Name ignored) with
the DNS matching closure; `CertNotValidForName` if nothing matched. -/
def verify_cert_dns_name (matchRef : Bytes → Bytes → Except Error Bool)
    (subject : Bytes) (subject_alt_name : Option Bytes) (dns_name : Bytes) :
    Except Error Unit :=
  ((NameIterator.new (some subject) subject_alt_name .Ignore).findMap
    (dnsNameClosure matchRef dns_name)).getD (.error .CertNotValidForName)

/-- The closure that the IP branch of `verify_cert_subject_name` passes to
`find_map` (`subject_name/verify.rs` lines 79-94). -/
def ipAddressClosure (ipMatch : Bytes → Bytes → Bool) (ip_address : Bytes) :
    Except Error GeneralName → Option (Except Error Unit) := fun result =>
  match result with
  | .error err => some (.error err)
  | .ok name =>
    match name with
    | .IpAddress presented =>
      if ipMatch presented ip_address then some (.ok ()) else none
    | _ => none

/-- The `SubjectNameRef` enum of `subject_name/name.rs`, carrying the DNS
name bytes or the raw IP octets. -/
inductive SubjectNameRef where
  | DnsName (name : Bytes)
  | IpAddressV4 (octets : Bytes)
  | IpAddressV6 (octets : Bytes)
  deriving DecidableEq, Repr

/-- `verify_cert_subject_name` (`subject_name/verify.rs` lines 58-96): DNS
references go through `verify_cert_dns_name`; IP references are compared
against Subject Alternative Names only (subject field not passed). -/
def verify_cert_subject_name (matchRef : Bytes → Bytes → Except Error Bool)
    (ipMatch : Bytes → Bytes → Bool) (subject : Bytes)
    (subject_alt_name : Option Bytes) (subject_name : SubjectNameRef) :
    Except Error Unit :=
  match subject_name with
  | .DnsName dns_name => verify_cert_dns_name matchRef subject subject_alt_name dns_name
  | .IpAddressV4 octets =>
    ((NameIterator.new none subject_alt_name .Ignore).findMap
      (ipAddressClosure ipMatch octets)).getD (.error .CertNotValidForName)
  | .IpAddressV6 octets =>
    ((NameIterator.new none subject_alt_name .Ignore).findMap
      (ipAddressClosure ipMatch octets)).getD (.error .CertNotValidForName)

/-- Spec-side description of the SAN part of the iteration: the SAN entries
parsed in encoded order; a parse failure contributes exactly one `Err` item
and ends the sequence. -/
def sanItemsSpec (input : Bytes) : List (Except Error GeneralName) :=
  match input with
  | [] => []
  | b :: t =>
    match h : GeneralName.from_der (b :: t) with
    | .ok (n, rest) => .ok n :: sanItemsSpec rest
    | .error e => [.error e]
termination_by input.length
decreasing_by
  have := GeneralName.from_der_length_lt h
  simp only [List.length_cons] at this ⊢
  omega

theorem sanItemsSpec_nil : sanItemsSpec [] = [] := by
  rw [sanItemsSpec]

theorem sanItemsSpec_cons (b : Nat) (t : Bytes) :
    sanItemsSpec (b :: t) =
      match GeneralName.from_der (b :: t) with
      | .ok (n, rest) => .ok n :: sanItemsSpec rest
      | .error e => [.error e] := by
  rw [sanItemsSpec]
  split
  · rename_i n rest heq
    rw [heq]
  · rename_i e heq
    rw [heq]

/-- Spec-side description of the DNS identity search over a sequence of SAN
items: succeed at the first `DnsName` entry the matcher accepts, treat
`Ok(false)` and `MalformedDnsIdentifier` as non-matches, stop on any other
error (including a SAN parse error), and report `CertNotValidForName` when
the entries are exhausted without a match. -/
def dnsScanList (matchRef : Bytes → Bytes → Except Error Bool) (dns_name : Bytes) :
    List (Except Error GeneralName) → Except Error Unit
  | [] => .error .CertNotValidForName
  | x :: xs =>
    match x with
    | .error e => .error e
    | .ok (.DnsName p) =>
      match matchRef p dns_name with
      | .ok true => .ok ()
      | .ok false => dnsScanList matchRef dns_name xs
      | .error .MalformedDnsIdentifier => dnsScanList matchRef dns_name xs
      | .error e => .error e
    | .ok _ => dnsScanList matchRef dns_name xs

/-- Spec-side description for C4: the identity search outcome depends on the
SAN entries alone. -/
def dns_name_outcome_san_only (matchRef : Bytes → Bytes → Except Error Bool)
    (subject_alt_name : Option Bytes) (dns_name : Bytes) : Except Error Unit :=
  match subject_alt_name with
  | none => .error .CertNotValidForName
  | some sb => dnsScanList matchRef dns_name (sanItemsSpec sb)

theorem findMap_dns_tail (m : Bytes → Bytes → Except Error Bool) (r subject : Bytes) :
    NameIterator.findMap ⟨none, some subject, none⟩ (dnsNameClosure m r) = none := by
  rw [NameIterator.findMap_dir]
  simp [dnsNameClosure, NameIterator.findMap_nil]

theorem findMap_dns_san (m : Bytes → Bytes → Except Error Bool) (r subject : Bytes) :
    ∀ (n : Nat) (sb : Bytes), sb.length ≤ n →
      (NameIterator.findMap ⟨some sb, some subject, none⟩ (dnsNameClosure m r)).getD
          (.error .CertNotValidForName) = dnsScanList m r (sanItemsSpec sb) := by
  intro n
  induction n with
  | zero =>
    intro sb hlen
    have hsb : sb = [] := List.length_eq_zero.mp (Nat.le_zero.mp hlen)
    subst hsb
    rw [NameIterator.findMap_san_nil, findMap_dns_tail, sanItemsSpec_nil]
    rfl
  | succ k ih =>
    intro sb hlen
    match sb with
    | [] =>
      rw [NameIterator.findMap_san_nil, findMap_dns_tail, sanItemsSpec_nil]
      rfl
    | b :: t =>
      match hf : GeneralName.from_der (b :: t) with
      | .error e =>
        rw [NameIterator.findMap_san_err hf, sanItemsSpec_cons, hf]
        rfl
      | .ok (name, rest) =>
        have hrest : rest.length ≤ k := by
          have := GeneralName.from_der_length_lt hf
          simp only [List.length_cons] at this hlen
          omega
        rw [NameIterator.findMap_san_cons hf, sanItemsSpec_cons, hf]
        match name with
        | .DnsName p =>
          match hm : m p r with
          | .ok true => simp [dnsNameClosure, hm, dnsScanList]
          | .ok false => simpa [dnsNameClosure, hm, dnsScanList] using ih rest hrest
          | .error e =>
            cases e <;>
              first
              | (simpa [dnsNameClosure, hm, dnsScanList] using ih rest hrest)
              | simp [dnsNameClosure, hm, dnsScanList]
        | .DirectoryName v => simpa [dnsNameClosure, dnsScanList] using ih rest hrest
        | .IpAddress v => simpa [dnsNameClosure, dnsScanList] using ih rest hrest
        | .UniformResourceIdentifier v =>
          simpa [dnsNameClosure, dnsScanList] using ih rest hrest
        | .Unsupported tag => simpa [dnsNameClosure, dnsScanList] using ih rest hrest

theorem verify_cert_dns_name_eq_san_only (m : Bytes → Bytes → Except Error Bool)
    (subject : Bytes) (san : Option Bytes) (r : Bytes) :
    verify_cert_dns_name m subject san r = dns_name_outcome_san_only m san r := by
  match san with
  | some sb =>
    have := findMap_dns_san m r subject sb.length sb (le_refl _)
    simpa [verify_cert_dns_name, NameIterator.new, dns_name_outcome_san_only] using this
  | none =>
    simp [verify_cert_dns_name, NameIterator.new, dns_name_outcome_san_only,
      findMap_dns_tail]



/-- C4: for every matcher behaviour, certificate subject, SAN and DNS
reference name, `verify_cert_dns_name` equals the SAN-only search: it scans
only the SAN entries in encoded order, returns `Ok` at the first `DnsName`
entry that matches the reference name, and returns `CertNotValidForName`
when no SAN entry matches; the subject (the only non-SAN name source) never
contributes. -/
theorem C4_dns_identity_uses_san_only (m : Bytes → Bytes → Except Error Bool)
    (subject : Bytes) (san : Option Bytes) (r : Bytes) :
    verify_cert_dns_name m subject san r = dns_name_outcome_san_only m san r :=
  verify_cert_dns_name_eq_san_only m subject san r

/-- C8: `verify_cert_subject_name` gives the same result on two certificates
that differ in the whole subject field (hence in particular certificates
that differ only in the subject Common Name): the subject — and so the
Common Name — never contributes to identity matching, for DNS and IP
reference names alike. -/
theorem C8_subject_never_used_for_identity (m : Bytes → Bytes → Except Error Bool)
    (im : Bytes → Bytes → Bool) (s1 s2 : Bytes) (san : Option Bytes)
    (name : SubjectNameRef) :
    verify_cert_subject_name m im s1 san name =
      verify_cert_subject_name m im s2 san name := by
  match name with
  | .DnsName dns =>
    simp only [verify_cert_subject_name]
    rw [verify_cert_dns_name_eq_san_only, verify_cert_dns_name_eq_san_only]
  | .IpAddressV4 o => rfl
  | .IpAddressV6 o => rfl

/-- C9: when matching a SAN `DnsName` entry against the reference name fails
with `MalformedDnsIdentifier`, `verify_cert_dns_name` treats the entry as a
non-match and continues with the remaining names; any other matcher error
terminates the search with that error. -/
theorem C9_malformed_identifier_skipped (m : Bytes → Bytes → Except Error Bool)
    (subject r : Bytes) (b : Nat) (t : Bytes) (p rest : Bytes) (e : Error)
    (hparse : GeneralName.from_der (b :: t) = .ok (.DnsName p, rest))
    (hmatch : m p r = .error e) :
    verify_cert_dns_name m subject (some (b :: t)) r =
      if e = .MalformedDnsIdentifier then
        verify_cert_dns_name m subject (some rest) r
      else .error e := by
  rw [verify_cert_dns_name_eq_san_only, verify_cert_dns_name_eq_san_only]
  simp only [dns_name_outcome_san_only]
  rw [sanItemsSpec_cons, hparse]
  simp only [dnsScanList, hmatch]
  cases e <;> simp

/-- Witness for C9 at a concrete input: a matcher that always reports
`MalformedDnsIdentifier` makes the search skip the entry. -/
theorem C9_malformed_identifier_skipped_witness :
    verify_cert_dns_name (fun _ _ => .error .MalformedDnsIdentifier) []
        (some [130, 1, 97]) [] =
      if Error.MalformedDnsIdentifier = Error.MalformedDnsIdentifier then
        verify_cert_dns_name (fun _ _ => .error .MalformedDnsIdentifier) []
          (some []) []
      else .error .MalformedDnsIdentifier :=
  C9_malformed_identifier_skipped (fun _ _ => .error .MalformedDnsIdentifier)
    [] [] 130 [1, 97] [97] [] .MalformedDnsIdentifier (by rfl) (by rfl)

/-- C10: on a certificate whose SAN extension is present with zero-length
contents, the name iterator yields no SAN entry and no SAN error — only the
subject directory name — and `verify_cert_dns_name` returns
`CertNotValidForName` rather than a DER parse error. -/
theorem C10_empty_san_not_a_parse_error (subject : Bytes)
    (m : Bytes → Bytes → Except Error Bool) (r : Bytes) :
    (NameIterator.new (some subject) (some []) .Ignore).items =
        [.ok (.DirectoryName subject)]
    ∧ verify_cert_dns_name m subject (some []) r = .error .CertNotValidForName := by
  constructor
  · show NameIterator.items ⟨some [], some subject, none⟩ = _
    rw [NameIterator.items_san_nil, NameIterator.items_dir, NameIterator.items_nil]
  · rw [verify_cert_dns_name_eq_san_only]
    simp only [dns_name_outcome_san_only]
    rw [sanItemsSpec_nil]
    rfl



/-- Whether an iterator item is a successfully parsed name. -/
def isOkItem : Except Error GeneralName → Bool
  | .ok _ => true
  | .error _ => false

/-- The subject directory name item of the spec-side item sequence. -/
def dirItems : Option Bytes → List (Except Error GeneralName)
  | some s => [.ok (.DirectoryName s)]
  | none => []

/-- The synthesized Common Name item of the spec-side item sequence. -/
def cnItems : Option Bytes → List (Except Error GeneralName)
  | some s =>
    match common_name s with
    | .ok (some cn) => [.ok (.DnsName cn)]
    | .ok none => []
    | .error e => [.error e]
  | none => []

/-- Spec-side description for C7 of the full item sequence of the name
iterator: the SAN entries in encoded order, then the subject as a
`DirectoryName`, then — only when the caller opted in — the subject Common
Name as a synthesized `DnsName`; and when the SAN fails to parse, the SAN
items up to and including the single `Err` with nothing after them. -/
def specItems (subject san : Option Bytes) (cnc : SubjectCommonNameContents) :
    List (Except Error GeneralName) :=
  let sanList := match san with | none => [] | some sb => sanItemsSpec sb
  let cnSource : Option Bytes :=
    match subject, cnc with
    | some s, .DnsName => some s
    | _, _ => none
  if sanList.all isOkItem then sanList ++ dirItems subject ++ cnItems cnSource
  else sanList

theorem items_tail_eq (d c : Option Bytes) :
    NameIterator.items ⟨none, d, c⟩ = dirItems d ++ cnItems c := by
  match d with
  | some s =>
    rw [NameIterator.items_dir]
    match c with
    | some s2 =>
      rw [NameIterator.items_cn]
      match hcn : common_name s2 with
      | .ok (some cn) => simp [dirItems, cnItems, hcn]
      | .ok none => simp [dirItems, cnItems, hcn]
      | .error e => simp [dirItems, cnItems, hcn]
    | none => simp [NameIterator.items_nil, dirItems, cnItems]
  | none =>
    match c with
    | some s2 =>
      rw [NameIterator.items_cn]
      match hcn : common_name s2 with
      | .ok (some cn) => simp [dirItems, cnItems, hcn]
      | .ok none => simp [dirItems, cnItems, hcn]
      | .error e => simp [dirItems, cnItems, hcn]
    | none => simp [NameIterator.items_nil, dirItems, cnItems]

theorem items_san_split (d c : Option Bytes) (sb : Bytes) :
    NameIterator.items ⟨some sb, d, c⟩ =
      if (sanItemsSpec sb).all isOkItem then
        sanItemsSpec sb ++ NameIterator.items ⟨none, d, c⟩
      else sanItemsSpec sb := by
  have key : ∀ (n : Nat) (sb : Bytes), sb.length ≤ n →
      NameIterator.items ⟨some sb, d, c⟩ =
        if (sanItemsSpec sb).all isOkItem then
          sanItemsSpec sb ++ NameIterator.items ⟨none, d, c⟩
        else sanItemsSpec sb := by
    intro n
    induction n with
    | zero =>
      intro sb hlen
      have hsb : sb = [] := List.length_eq_zero.mp (Nat.le_zero.mp hlen)
      subst hsb
      rw [NameIterator.items_san_nil, sanItemsSpec_nil]
      simp
    | succ k ih =>
      intro sb hlen
      match sb with
      | [] =>
        rw [NameIterator.items_san_nil, sanItemsSpec_nil]
        simp
      | b :: t =>
        match hf : GeneralName.from_der (b :: t) with
        | .error e =>
          rw [NameIterator.items_san_err hf, sanItemsSpec_cons, hf]
          simp [isOkItem]
        | .ok (name, rest) =>
          have hrest : rest.length ≤ k := by
            have := GeneralName.from_der_length_lt hf
            simp only [List.length_cons] at this hlen
            omega
          rw [NameIterator.items_san_cons hf, sanItemsSpec_cons, hf, ih rest hrest]
          by_cases hall : (sanItemsSpec rest).all isOkItem = true
          · simp [hall, isOkItem]
          · simp [hall, isOkItem]
  exact key sb.length sb (le_refl _)

/-- C7: the name iterator yields exactly: every SAN entry in encoded order,
then the subject DN as a `DirectoryName`, then (only when the caller opts in
via `SubjectCommonNameContents::DnsName`) the subject Common Name as a
synthesized `DnsName`; and when parsing a SAN entry fails it yields the
entries before the failure, exactly one `Err`, and nothing afterwards. -/
theorem C7_name_iterator_order (subject san : Option Bytes)
    (cnc : SubjectCommonNameContents) :
    (NameIterator.new subject san cnc).items = specItems subject san cnc := by
  have hnew : NameIterator.new subject san cnc =
      ⟨san, subject,
        match subject, cnc with
        | some s, .DnsName => some s
        | _, _ => none⟩ := by
    cases subject <;> cases cnc <;> rfl
  rw [hnew]
  match san with
  | none =>
    simp only [specItems]
    rw [items_tail_eq]
    simp
  | some sb =>
    simp only [specItems]
    rw [items_san_split, items_tail_eq]
    by_cases hall : (sanItemsSpec sb).all isOkItem = true
    · simp [hall, List.append_assoc]
    · simp [hall]



/-- The `Subtrees` enum of `subject_name/verify.rs`. -/
inductive Subtrees where
  | PermittedSubtrees
  | ExcludedSubtrees
  deriving DecidableEq, Repr

/-- The `general_subtree` helper of `check_presented_id_conforms_to_constraints`
(`subject_name/verify.rs` lines 163-166): a GeneralSubtree is a SEQUENCE whose
content is exactly one `GeneralName` (trailing bytes inside the SEQUENCE make
it `BadDer` through `read_all`). -/
def general_subtree (input : Bytes) : Except Error (GeneralName × Bytes) :=
  match expect_tag_and_get_value input 48 with
  | .error e => .error e
  | .ok (value, rest) =>
    match GeneralName.from_der value with
    | .error e => .error e
    | .ok (name, leftover) =>
      if leftover = [] then .ok (name, rest) else .error .BadDer

theorem general_subtree_length_lt {input : Bytes} {n : GeneralName} {rest : Bytes}
    (h : general_subtree input = .ok (n, rest)) : rest.length < input.length := by
  simp only [general_subtree] at h
  split at h
  · simp at h
  · rename_i value rest' hexp
    split at h
    · simp at h
    · rename_i name leftover hfd
      split at h
      · simp only [Except.ok.injEq, Prod.mk.injEq] at h
        obtain ⟨-, rfl⟩ := h
        exact expect_tag_and_get_value_length_lt hexp
      · simp at h

/-- The `matches` computation of `check_presented_id_conforms_to_constraints`
(`subject_name/verify.rs` lines 189-237) for one presented name and one
subtree base: `none` models the `continue` taken when the name forms differ;
DNS and IP pairs delegate to `presented_id_matches_constraint` (parameters
`dm` and `im`); DirectoryName pairs never match a permitted subtree and
always match an excluded subtree; equal-tag Unsupported pairs produce
`Err(NameConstraintViolation)`. -/
def subtreeMatch (dm im : Bytes → Bytes → Except Error Bool) (sub : Subtrees)
    (name base : GeneralName) : Option (Except Error Bool) :=
  match name, base with
  | .DnsName n, .DnsName b => some (dm n b)
  | .DirectoryName _, .DirectoryName _ =>
    some (.ok (match sub with
               | .PermittedSubtrees => false
               | .ExcludedSubtrees => true))
  | .IpAddress n, .IpAddress b => some (im n b)
  | .Unsupported t1, .Unsupported t2 =>
    if t1 = t2 then some (.error .NameConstraintViolation) else none
  | _, _ => none

/-- One iteration of the while loop of
`check_presented_id_conforms_to_constraints` (`subject_name/verify.rs` lines
189-254) after the subtree has been parsed: the `matches` computation
followed by the `match (subtrees, matches)` flag update. `.error r` models
the early `return Some(r)`; `.ok` carries the updated flags. -/
def subtreeStep (dm im : Bytes → Bytes → Except Error Bool) (sub : Subtrees)
    (name base : GeneralName) (hasMatch hasMismatch : Bool) :
    Except (Except Error Unit) (Bool × Bool) :=
  match subtreeMatch dm im sub name base with
  | none => .ok (hasMatch, hasMismatch)
  | some (.error e) => .error (.error e)
  | some (.ok true) =>
    match sub with
    | .PermittedSubtrees => .ok (true, hasMismatch)
    | .ExcludedSubtrees => .error (.error .NameConstraintViolation)
  | some (.ok false) =>
    match sub with
    | .PermittedSubtrees => .ok (hasMatch, true)
    | .ExcludedSubtrees => .ok (hasMatch, hasMismatch)

/-- The while loop of `check_presented_id_conforms_to_constraints`
(`subject_name/verify.rs` lines 176-255) over the raw subtree bytes of one
group, with the two flags `has_permitted_subtrees_match` and
`has_permitted_subtrees_mismatch`. -/
def subtreeLoop (dm im : Bytes → Bytes → Except Error Bool) (name : GeneralName)
    (sub : Subtrees) (constraints : Bytes) (hasMatch hasMismatch : Bool) :
    Except (Except Error Unit) (Bool × Bool) :=
  match constraints with
  | [] => .ok (hasMatch, hasMismatch)
  | b :: t =>
    match h : general_subtree (b :: t) with
    | .error e => .error (.error e)
    | .ok (base, rest) =>
      match subtreeStep dm im sub name base hasMatch hasMismatch with
      | .error r => .error r
      | .ok (m2, mm2) => subtreeLoop dm im name sub rest m2 mm2
termination_by constraints.length
decreasing_by
  have := general_subtree_length_lt h
  simp only [List.length_cons] at this ⊢
  omega

theorem subtreeLoop_nil (dm im : Bytes → Bytes → Except Error Bool)
    (name : GeneralName) (sub : Subtrees) (m mm : Bool) :
    subtreeLoop dm im name sub [] m mm = .ok (m, mm) := by
  rw [subtreeLoop]

theorem subtreeLoop_cons (dm im : Bytes → Bytes → Except Error Bool)
    (name : GeneralName) (sub : Subtrees) (b : Nat) (t : Bytes) (m mm : Bool) :
    subtreeLoop dm im name sub (b :: t) m mm =
      match general_subtree (b :: t) with
      | .error e => .error (.error e)
      | .ok (base, rest) =>
        match subtreeStep dm im sub name base m mm with
        | .error r => .error r
        | .ok (m2, mm2) => subtreeLoop dm im name sub rest m2 mm2 := by
  rw [subtreeLoop]
  split
  · rename_i e heq
    rw [heq]
  · rename_i base rest heq
    rw [heq]

/-- All subtree entries of one group, parsed in order. -/
def parseSubtrees (input : Bytes) : Except Error (List GeneralName) :=
  match input with
  | [] => .ok []
  | b :: t =>
    match h : general_subtree (b :: t) with
    | .error e => .error e
    | .ok (base, rest) =>
      match parseSubtrees rest with
      | .error e => .error e
      | .ok bases => .ok (base :: bases)
termination_by input.length
decreasing_by
  have := general_subtree_length_lt h
  simp only [List.length_cons] at this ⊢
  omega

theorem parseSubtrees_nil : parseSubtrees [] = .ok [] := by
  rw [parseSubtrees]

theorem parseSubtrees_cons (b : Nat) (t : Bytes) :
    parseSubtrees (b :: t) =
      match general_subtree (b :: t) with
      | .error e => .error e
      | .ok (base, rest) =>
        match parseSubtrees rest with
        | .error e => .error e
        | .ok bases => .ok (base :: bases) := by
  rw [parseSubtrees]
  split
  · rename_i e heq
    rw [heq]
  · rename_i base rest heq
    rw [heq]

/-- The entries of an optional subtree group (`None` meaning the group is
absent and holds no entries). -/
def parseSubtreesOpt : Option Bytes → Except Error (List GeneralName)
  | none => .ok []
  | some c => parseSubtrees c

/-- One group iteration of the outer `for` loop of
`check_presented_id_conforms_to_constraints` (`subject_name/verify.rs` lines
168-263): absent constraints continue; otherwise run the while loop from
fresh flags and apply the final
`has_permitted_subtrees_mismatch && !has_permitted_subtrees_match` check. -/
def checkGroup (dm im : Bytes → Bytes → Except Error Bool) (name : GeneralName)
    (sub : Subtrees) (constraints : Option Bytes) : Option (Except Error Unit) :=
  match constraints with
  | none => none
  | some c =>
    match subtreeLoop dm im name sub c false false with
    | .error r => some r
    | .ok (m, mm) =>
      if mm && !m then some (.error .NameConstraintViolation) else none

/-- `check_presented_id_conforms_to_constraints` (`subject_name/verify.rs`
lines 153-266): the permitted group, then the excluded group. -/
def check_presented_id_conforms_to_constraints
    (dm im : Bytes → Bytes → Except Error Bool) (name : GeneralName)
    (permitted_subtrees excluded_subtrees : Option Bytes) :
    Option (Except Error Unit) :=
  match checkGroup dm im name .PermittedSubtrees permitted_subtrees with
  | some r => some r
  | none => checkGroup dm im name .ExcludedSubtrees excluded_subtrees

/-- The while loop over already-parsed subtree entries. -/
def subtreeListLoop (dm im : Bytes → Bytes → Except Error Bool) (name : GeneralName)
    (sub : Subtrees) : List GeneralName → Bool → Bool →
    Except (Except Error Unit) (Bool × Bool)
  | [], m, mm => .ok (m, mm)
  | base :: rest, m, mm =>
    match subtreeStep dm im sub name base m mm with
    | .error r => .error r
    | .ok (m2, mm2) => subtreeListLoop dm im name sub rest m2 mm2

/-- One group of the checker over already-parsed subtree entries. -/
def checkListGroup (dm im : Bytes → Bytes → Except Error Bool) (name : GeneralName)
    (sub : Subtrees) (bases : List GeneralName) : Option (Except Error Unit) :=
  match subtreeListLoop dm im name sub bases false false with
  | .error r => some r
  | .ok (m, mm) =>
    if mm && !m then some (.error .NameConstraintViolation) else none

/-- The whole checker over already-parsed permitted and excluded entries. -/
def checkList (dm im : Bytes → Bytes → Except Error Bool) (name : GeneralName)
    (pL eL : List GeneralName) : Option (Except Error Unit) :=
  match checkListGroup dm im name .PermittedSubtrees pL with
  | some r => some r
  | none => checkListGroup dm im name .ExcludedSubtrees eL

/-- Whether a subtree base has the same name form as the presented name, in
the sense of the code: exactly the pairs that do not take the `continue`
arm. (Note URI pairs are not compared by the code, so they count as
different forms.) -/
def sameConstraintType : GeneralName → GeneralName → Bool
  | .DnsName _, .DnsName _ => true
  | .DirectoryName _, .DirectoryName _ => true
  | .IpAddress _, .IpAddress _ => true
  | .Unsupported t1, .Unsupported t2 => t1 = t2
  | _, _ => false

/-- The DNS and IP matchers succeed (do not return `Err`) on this
name/base pair; vacuous for pairs that never reach a matcher. -/
def noMatcherError (dm im : Bytes → Bytes → Except Error Bool)
    (name base : GeneralName) : Prop :=
  match name, base with
  | .DnsName n, .DnsName b => ∃ r, dm n b = .ok r
  | .IpAddress n, .IpAddress b => ∃ r, im n b = .ok r
  | _, _ => True



theorem subtreeMatch_none_iff (dm im : Bytes → Bytes → Except Error Bool)
    (sub : Subtrees) (name base : GeneralName) :
    subtreeMatch dm im sub name base = none ↔
      sameConstraintType name base = false := by
  cases name <;> cases base <;>
    simp [subtreeMatch, sameConstraintType] <;>
    split_ifs <;> simp_all

theorem subtreeMatch_error_ncv {dm im : Bytes → Bytes → Except Error Bool}
    {sub : Subtrees} {name base : GeneralName} {e : Error}
    (hok : noMatcherError dm im name base)
    (h : subtreeMatch dm im sub name base = some (.error e)) :
    e = .NameConstraintViolation := by
  cases name <;> cases base <;>
    simp only [subtreeMatch, noMatcherError] at h hok <;>
    first
    | (obtain ⟨r, hr⟩ := hok; rw [hr] at h; simp at h)
    | ((simp at h) <;> first | exact h.symm | exact h.2.symm)
    | simp at h
    | (cases sub <;> simp_all)

theorem subtreeLoop_eq_listLoop (dm im : Bytes → Bytes → Except Error Bool)
    (name : GeneralName) (sub : Subtrees) :
    ∀ (n : Nat) (c : Bytes) (L : List GeneralName), c.length ≤ n →
      parseSubtrees c = .ok L → ∀ m mm,
      subtreeLoop dm im name sub c m mm = subtreeListLoop dm im name sub L m mm := by
  intro n
  induction n with
  | zero =>
    intro c L hlen hp m mm
    have hc : c = [] := List.length_eq_zero.mp (Nat.le_zero.mp hlen)
    subst hc
    rw [parseSubtrees_nil] at hp
    simp only [Except.ok.injEq] at hp
    subst hp
    rw [subtreeLoop_nil]
    rfl
  | succ k ih =>
    intro c L hlen hp m mm
    match c with
    | [] =>
      rw [parseSubtrees_nil] at hp
      simp only [Except.ok.injEq] at hp
      subst hp
      rw [subtreeLoop_nil]
      rfl
    | b :: t =>
      rw [parseSubtrees_cons] at hp
      match hg : general_subtree (b :: t) with
      | .error e => rw [hg] at hp; simp at hp
      | .ok (base, rest) =>
        simp only [hg] at hp
        match hpr : parseSubtrees rest with
        | .error e => rw [hpr] at hp; simp at hp
        | .ok bases =>
          rw [hpr] at hp
          simp only [Except.ok.injEq] at hp
          subst hp
          have hrest : rest.length ≤ k := by
            have := general_subtree_length_lt hg
            simp only [List.length_cons] at this hlen
            omega
          rw [subtreeLoop_cons, hg]
          match hs : subtreeStep dm im sub name base m mm with
          | .error r => simp [subtreeListLoop, hs]
          | .ok (m2, mm2) =>
            simp only [subtreeListLoop, hs]
            exact ih rest bases hrest hpr m2 mm2

theorem checkGroup_eq_listGroup (dm im : Bytes → Bytes → Except Error Bool)
    (name : GeneralName) (sub : Subtrees) {o : Option Bytes} {L : List GeneralName}
    (h : parseSubtreesOpt o = .ok L) :
    checkGroup dm im name sub o = checkListGroup dm im name sub L := by
  match o with
  | none =>
    simp only [parseSubtreesOpt, Except.ok.injEq] at h
    subst h
    simp [checkGroup, checkListGroup, subtreeListLoop]
  | some c =>
    simp only [parseSubtreesOpt] at h
    simp only [checkGroup, checkListGroup,
      subtreeLoop_eq_listLoop dm im name sub c.length c L (le_refl _) h false false]

theorem check_eq_checkList (dm im : Bytes → Bytes → Except Error Bool)
    (name : GeneralName) {pOpt eOpt : Option Bytes} {pL eL : List GeneralName}
    (hp : parseSubtreesOpt pOpt = .ok pL) (he : parseSubtreesOpt eOpt = .ok eL) :
    check_presented_id_conforms_to_constraints dm im name pOpt eOpt =
      checkList dm im name pL eL := by
  simp only [check_presented_id_conforms_to_constraints, checkList,
    checkGroup_eq_listGroup dm im name _ hp, checkGroup_eq_listGroup dm im name _ he]

theorem all_none_listLoop (dm im : Bytes → Bytes → Except Error Bool)
    (name : GeneralName) (sub : Subtrees) :
    ∀ (L : List GeneralName) (m mm : Bool),
      (∀ b ∈ L, subtreeMatch dm im sub name b = none) →
      subtreeListLoop dm im name sub L m mm = .ok (m, mm) := by
  intro L
  induction L with
  | nil => intro m mm _; rfl
  | cons base rest ih =>
    intro m mm hall
    have hb := hall base (by simp)
    simp only [subtreeListLoop, subtreeStep, hb]
    exact ih m mm (fun b hbr => hall b (List.mem_cons_of_mem base hbr))

theorem permitted_loop_no_match (dm im : Bytes → Bytes → Except Error Bool)
    (name : GeneralName) :
    ∀ (L : List GeneralName) (m mm : Bool),
      (∀ b ∈ L, noMatcherError dm im name b) →
      (∀ b ∈ L, subtreeMatch dm im .PermittedSubtrees name b ≠ some (.ok true)) →
      subtreeListLoop dm im name .PermittedSubtrees L m mm =
          .error (.error .NameConstraintViolation)
        ∨ subtreeListLoop dm im name .PermittedSubtrees L m mm =
          .ok (m, mm || L.any
            (fun b => (subtreeMatch dm im .PermittedSubtrees name b).isSome)) := by
  intro L
  induction L with
  | nil => intro m mm _ _; right; simp [subtreeListLoop]
  | cons base rest ih =>
    intro m mm hok hnot
    have hok' := fun b hb => hok b (List.mem_cons_of_mem base hb)
    have hnot' := fun b hb => hnot b (List.mem_cons_of_mem base hb)
    match hmb : subtreeMatch dm im .PermittedSubtrees name base with
    | none =>
      simp only [subtreeListLoop, subtreeStep, hmb]
      rcases ih m mm hok' hnot' with h | h
      · exact Or.inl h
      · right
        rw [h]
        simp [hmb]
    | some (.ok true) => exact absurd hmb (hnot base (by simp))
    | some (.ok false) =>
      simp only [subtreeListLoop, subtreeStep, hmb]
      rcases ih m true hok' hnot' with h | h
      · exact Or.inl h
      · right
        rw [h]
        simp [hmb]
    | some (.error e) =>
      have he : e = .NameConstraintViolation :=
        subtreeMatch_error_ncv (hok base (by simp)) hmb
      subst he
      left
      simp [subtreeListLoop, subtreeStep, hmb]

theorem permitted_loop_shape (dm im : Bytes → Bytes → Except Error Bool)
    (name : GeneralName) :
    ∀ (L : List GeneralName) (m mm : Bool),
      (∀ b ∈ L, noMatcherError dm im name b) →
      subtreeListLoop dm im name .PermittedSubtrees L m mm =
          .error (.error .NameConstraintViolation)
        ∨ ∃ p, subtreeListLoop dm im name .PermittedSubtrees L m mm = .ok p := by
  intro L
  induction L with
  | nil => intro m mm _; right; exact ⟨(m, mm), rfl⟩
  | cons base rest ih =>
    intro m mm hok
    have hok' := fun b hb => hok b (List.mem_cons_of_mem base hb)
    match hmb : subtreeMatch dm im .PermittedSubtrees name base with
    | none =>
      simp only [subtreeListLoop, subtreeStep, hmb]
      exact ih m mm hok'
    | some (.ok true) =>
      simp only [subtreeListLoop, subtreeStep, hmb]
      exact ih true mm hok'
    | some (.ok false) =>
      simp only [subtreeListLoop, subtreeStep, hmb]
      exact ih m true hok'
    | some (.error e) =>
      have he : e = .NameConstraintViolation :=
        subtreeMatch_error_ncv (hok base (by simp)) hmb
      subst he
      left
      simp [subtreeListLoop, subtreeStep, hmb]

theorem permitted_group_shape (dm im : Bytes → Bytes → Except Error Bool)
    (name : GeneralName) (L : List GeneralName)
    (hok : ∀ b ∈ L, noMatcherError dm im name b) :
    checkListGroup dm im name .PermittedSubtrees L = none ∨
      checkListGroup dm im name .PermittedSubtrees L =
        some (.error .NameConstraintViolation) := by
  rcases permitted_loop_shape dm im name L false false hok with h | ⟨⟨m, mm⟩, h⟩
  · right
    simp [checkListGroup, h]
  · simp only [checkListGroup, h]
    by_cases hc : (mm && !m) = true
    · right
      simp [hc]
    · left
      simp [hc]

theorem excluded_loop_match (dm im : Bytes → Bytes → Except Error Bool)
    (name : GeneralName) :
    ∀ (L : List GeneralName) (m mm : Bool),
      (∀ b ∈ L, noMatcherError dm im name b) →
      (∃ b ∈ L, subtreeMatch dm im .ExcludedSubtrees name b = some (.ok true)) →
      subtreeListLoop dm im name .ExcludedSubtrees L m mm =
        .error (.error .NameConstraintViolation) := by
  intro L
  induction L with
  | nil => intro m mm _ hex; simp at hex
  | cons base rest ih =>
    intro m mm hok hex
    have hok' := fun b hb => hok b (List.mem_cons_of_mem base hb)
    match hmb : subtreeMatch dm im .ExcludedSubtrees name base with
    | some (.ok true) => simp [subtreeListLoop, subtreeStep, hmb]
    | none =>
      simp only [subtreeListLoop, subtreeStep, hmb]
      apply ih m mm hok'
      obtain ⟨b, hb, hbm⟩ := hex
      rcases List.mem_cons.mp hb with rfl | hbr
      · rw [hmb] at hbm; cases hbm
      · exact ⟨b, hbr, hbm⟩
    | some (.ok false) =>
      simp only [subtreeListLoop, subtreeStep, hmb]
      apply ih m mm hok'
      obtain ⟨b, hb, hbm⟩ := hex
      rcases List.mem_cons.mp hb with rfl | hbr
      · rw [hmb] at hbm; simp at hbm
      · exact ⟨b, hbr, hbm⟩
    | some (.error e) =>
      have he : e = .NameConstraintViolation :=
        subtreeMatch_error_ncv (hok base (by simp)) hmb
      subst he
      simp [subtreeListLoop, subtreeStep, hmb]

theorem listLoop_filter (dm im : Bytes → Bytes → Except Error Bool)
    (name : GeneralName) (sub : Subtrees) :
    ∀ (L : List GeneralName) (m mm : Bool),
      subtreeListLoop dm im name sub L m mm =
        subtreeListLoop dm im name sub (L.filter (sameConstraintType name)) m mm := by
  intro L
  induction L with
  | nil => intro m mm; rfl
  | cons base rest ih =>
    intro m mm
    by_cases hty : sameConstraintType name base = true
    · rw [List.filter_cons_of_pos hty]
      simp only [subtreeListLoop]
      match hs : subtreeStep dm im sub name base m mm with
      | .error r => rfl
      | .ok (m2, mm2) => exact ih m2 mm2
    · have hnone : subtreeMatch dm im sub name base = none :=
        (subtreeMatch_none_iff dm im sub name base).mpr (by simpa using hty)
      rw [List.filter_cons_of_neg (by simpa using hty)]
      simp only [subtreeListLoop, subtreeStep, hnone]
      exact ih m mm

theorem checkList_filter (dm im : Bytes → Bytes → Except Error Bool)
    (name : GeneralName) (pL eL : List GeneralName) :
    checkList dm im name pL eL =
      checkList dm im name (pL.filter (sameConstraintType name))
        (eL.filter (sameConstraintType name)) := by
  simp only [checkList, checkListGroup]
  rw [← listLoop_filter, ← listLoop_filter]



/-- C5: for a presented name checked against parsed name constraints whose
DNS/IP matcher calls do not error: the byte-level checker agrees with the
checker over the parsed entries; if any excluded subtree of the same name
form matches, the check rejects with `NameConstraintViolation`; if at least
one permitted subtree of the same name form exists and none matches, the
check rejects with `NameConstraintViolation`; and constraint entries of a
different name form have no effect on the outcome (filtering them away
changes nothing). -/
theorem C5_constraint_enforcement (dm im : Bytes → Bytes → Except Error Bool)
    (name : GeneralName) (pOpt eOpt : Option Bytes) (pL eL : List GeneralName)
    (hp : parseSubtreesOpt pOpt = .ok pL) (he : parseSubtreesOpt eOpt = .ok eL)
    (hok : ∀ b, (b ∈ pL ∨ b ∈ eL) → noMatcherError dm im name b) :
    (check_presented_id_conforms_to_constraints dm im name pOpt eOpt =
      checkList dm im name pL eL)
    ∧ ((∃ b ∈ eL, subtreeMatch dm im .ExcludedSubtrees name b = some (.ok true)) →
        check_presented_id_conforms_to_constraints dm im name pOpt eOpt =
          some (.error .NameConstraintViolation))
    ∧ (((∃ b ∈ pL, (subtreeMatch dm im .PermittedSubtrees name b).isSome) ∧
        (∀ b ∈ pL, subtreeMatch dm im .PermittedSubtrees name b ≠ some (.ok true))) →
        check_presented_id_conforms_to_constraints dm im name pOpt eOpt =
          some (.error .NameConstraintViolation))
    ∧ (checkList dm im name pL eL =
        checkList dm im name (pL.filter (sameConstraintType name))
          (eL.filter (sameConstraintType name))) := by
  have hokP : ∀ b ∈ pL, noMatcherError dm im name b := fun b hb => hok b (Or.inl hb)
  have hokE : ∀ b ∈ eL, noMatcherError dm im name b := fun b hb => hok b (Or.inr hb)
  have hbridge := check_eq_checkList dm im name hp he
  refine ⟨hbridge, ?_, ?_, checkList_filter dm im name pL eL⟩
  · intro hex
    rw [hbridge]
    rcases permitted_group_shape dm im name pL hokP with hg | hg
    · have hloop := excluded_loop_match dm im name eL false false hokE hex
      simp only [checkList, hg]
      simp [checkListGroup, hloop]
    · simp [checkList, hg]
  · rintro ⟨hexP, hnot⟩
    rw [hbridge]
    rcases permitted_loop_no_match dm im name pL false false hokP hnot with hl | hl
    · simp [checkList, checkListGroup, hl]
    · have hany : pL.any
          (fun b => (subtreeMatch dm im .PermittedSubtrees name b).isSome) = true := by
        obtain ⟨b, hb, hbs⟩ := hexP
        exact List.any_eq_true.mpr ⟨b, hb, hbs⟩
      rw [hany] at hl
      simp [checkList, checkListGroup, hl]

/-- Witness for C5 at a concrete input: presented `DnsName "a"`, one
permitted subtree `DnsName "b"` (same form, no match) and one excluded
subtree `DnsName "a"` (matches), with a byte-equality matcher. -/
theorem C5_constraint_enforcement_witness :
    check_presented_id_conforms_to_constraints (fun p c => .ok (p == c))
        (fun _ _ => .ok false) (.DnsName [97]) (some [48, 3, 130, 1, 98])
        (some [48, 3, 130, 1, 97]) = some (.error .NameConstraintViolation) := by
  have hp : parseSubtreesOpt (some [48, 3, 130, 1, 98]) = .ok [.DnsName [98]] := by
    show parseSubtrees [48, 3, 130, 1, 98] = _
    rw [parseSubtrees_cons]
    simp only [show general_subtree [48, 3, 130, 1, 98] = .ok (.DnsName [98], []) from rfl,
      parseSubtrees_nil]
  have he : parseSubtreesOpt (some [48, 3, 130, 1, 97]) = .ok [.DnsName [97]] := by
    show parseSubtrees [48, 3, 130, 1, 97] = _
    rw [parseSubtrees_cons]
    simp only [show general_subtree [48, 3, 130, 1, 97] = .ok (.DnsName [97], []) from rfl,
      parseSubtrees_nil]
  exact (C5_constraint_enforcement (fun p c => .ok (p == c)) (fun _ _ => .ok false)
      (.DnsName [97]) (some [48, 3, 130, 1, 98]) (some [48, 3, 130, 1, 97])
      [.DnsName [98]] [.DnsName [97]] hp he
      (by rintro b (hb | hb) <;> simp only [List.mem_singleton] at hb <;> subst hb <;>
        exact ⟨_, rfl⟩)).2.1
    ⟨.DnsName [97], by simp, by rfl⟩

/-- C6: a permitted subtree of type DirectoryName never matches a presented
DirectoryName and an excluded subtree of type DirectoryName always matches
it, so whenever the parsed constraints contain a DirectoryName subtree
(permitted or excluded), checking a presented DirectoryName rejects with
`NameConstraintViolation`. -/
theorem C6_directory_name_constraints_reject (dm im : Bytes → Bytes → Except Error Bool)
    (d : Bytes) (pOpt eOpt : Option Bytes) (pL eL : List GeneralName)
    (hp : parseSubtreesOpt pOpt = .ok pL) (he : parseSubtreesOpt eOpt = .ok eL)
    (hdn : (∃ v, GeneralName.DirectoryName v ∈ pL) ∨
      (∃ v, GeneralName.DirectoryName v ∈ eL)) :
    (∀ v, subtreeMatch dm im .PermittedSubtrees (.DirectoryName d) (.DirectoryName v) =
      some (.ok false))
    ∧ (∀ v, subtreeMatch dm im .ExcludedSubtrees (.DirectoryName d) (.DirectoryName v) =
      some (.ok true))
    ∧ check_presented_id_conforms_to_constraints dm im (.DirectoryName d) pOpt eOpt =
        some (.error .NameConstraintViolation) := by
  refine ⟨fun v => rfl, fun v => rfl, ?_⟩
  have hokAll : ∀ b, noMatcherError dm im (.DirectoryName d) b := by
    intro b
    cases b <;> trivial
  rw [check_eq_checkList dm im (.DirectoryName d) hp he]
  by_cases hpDN : ∃ v, GeneralName.DirectoryName v ∈ pL
  · obtain ⟨v, hv⟩ := hpDN
    have hnot : ∀ b ∈ pL,
        subtreeMatch dm im .PermittedSubtrees (.DirectoryName d) b ≠ some (.ok true) := by
      intro b _ hcontra
      cases b <;> simp [subtreeMatch] at hcontra
    rcases permitted_loop_no_match dm im (.DirectoryName d) pL false false
        (fun b _ => hokAll b) hnot with hl | hl
    · simp [checkList, checkListGroup, hl]
    · have hany : pL.any (fun b =>
          (subtreeMatch dm im .PermittedSubtrees (.DirectoryName d) b).isSome) = true :=
        List.any_eq_true.mpr ⟨.DirectoryName v, hv, by rfl⟩
      rw [hany] at hl
      simp [checkList, checkListGroup, hl]
  · have heDN : ∃ v, GeneralName.DirectoryName v ∈ eL := hdn.resolve_left hpDN
    obtain ⟨v, hv⟩ := heDN
    have hallnone : ∀ b ∈ pL,
        subtreeMatch dm im .PermittedSubtrees (.DirectoryName d) b = none := by
      intro b hb
      cases b <;> first | rfl | exact absurd ⟨_, hb⟩ hpDN
    have hloopP := all_none_listLoop dm im (.DirectoryName d) .PermittedSubtrees
      pL false false hallnone
    have hloopE := excluded_loop_match dm im (.DirectoryName d) eL false false
      (fun b _ => hokAll b) ⟨.DirectoryName v, hv, rfl⟩
    simp [checkList, checkListGroup, hloopP, hloopE]

/-- Witness for C6 at a concrete input: no permitted entries and one
excluded DirectoryName subtree reject a presented DirectoryName. -/
theorem C6_directory_name_constraints_reject_witness :
    check_presented_id_conforms_to_constraints (fun _ _ => .ok false)
        (fun _ _ => .ok false) (.DirectoryName [1]) (some []) (some [48, 2, 164, 0]) =
      some (.error .NameConstraintViolation) := by
  have hp : parseSubtreesOpt (some ([] : Bytes)) = .ok [] := by
    show parseSubtrees [] = _
    exact parseSubtrees_nil
  have he : parseSubtreesOpt (some [48, 2, 164, 0]) = .ok [.DirectoryName []] := by
    show parseSubtrees [48, 2, 164, 0] = _
    rw [parseSubtrees_cons]
    simp only [show general_subtree [48, 2, 164, 0] = .ok (.DirectoryName [], []) from rfl,
      parseSubtrees_nil]
  exact (C6_directory_name_constraints_reject (fun _ _ => .ok false) (fun _ _ => .ok false)
      [1] (some []) (some [48, 2, 164, 0]) [] [.DirectoryName []] hp he
      (Or.inr ⟨[], by simp⟩)).2.2


end Webpki
